import Mathlib

/-!
Verification development for the `aecra/raft` repository: a shallow
embedding of the consensus module in `raft/raft.go` and of the stack
calculator application in `calculator/calculator.go`, with theorems
settling the specification claims about them.

Conventions of the embedding:
- Go `int` is modelled as `Int` (no overflow is relevant to any claim).
- Go maps with `int` keys are modelled as total functions `Int → _`
  (a missing key yields the Go zero value) or, where the key set
  matters, as association via `List`.
- Mutating methods become pure functions returning the updated value.
- Channel sends become `Bool` outputs ("a signal was posted") and
  channel receives become an explicit list of arriving values.
- Wall-clock instants (`time.Now()`) become a `Nat` parameter `now`.
-/

namespace Calc

/-- The `Calculator` application state from `calculator/calculator.go`:
`Calculator map[int][]int` (instance id to stack, top of the stack at the
end of the list, as in the Go slice) and `LastInstanceId int`. -/
structure Calculator where
  instances : Int → Option (List Int)
  lastInstanceId : Int

/-- The command record `Entry{Method string; InstanceId int; Operand int}`. -/
structure Entry where
  method : String
  instanceId : Int
  operand : Int
deriving DecidableEq

/-- The reply record `Result{Result bool; Value int}`. -/
structure CalcResult where
  result : Bool
  value : Int
deriving DecidableEq

/-- `NewCalculator`: empty instance map, `LastInstanceId = 0`. -/
def newCalculator : Calculator :=
  { instances := fun _ => none, lastInstanceId := 0 }

/-- `createCalculator`: increments `LastInstanceId`, installs an empty
stack under the new id and returns the new id. -/
def createCalculator (c : Calculator) : Calculator × Int :=
  (⟨fun k => if k = c.lastInstanceId + 1 then some [] else c.instances k,
    c.lastInstanceId + 1⟩, c.lastInstanceId + 1)

/-- `deleteCalculator`: removes the instance if present, reporting whether
it existed. -/
def deleteCalculator (c : Calculator) (id : Int) : Calculator × Bool :=
  match c.instances id with
  | none => (c, false)
  | some _ => (⟨fun k => if k = id then none else c.instances k, c.lastInstanceId⟩, true)

/-- `push`: appends the operand at the end (top) of the instance's stack. -/
def push (c : Calculator) (id : Int) (operand : Int) : Calculator × Bool :=
  match c.instances id with
  | none => (c, false)
  | some s =>
    (⟨fun k => if k = id then some (s ++ [operand]) else c.instances k,
      c.lastInstanceId⟩, true)

/-- `pop`: removes and returns the last (top) element of the instance's
stack; fails on a missing instance or an empty stack. -/
def pop (c : Calculator) (id : Int) : Calculator × Int × Bool :=
  match c.instances id with
  | none => (c, 0, false)
  | some s =>
    if s.length = 0 then (c, 0, false)
    else
      (⟨fun k => if k = id then some s.dropLast else c.instances k,
        c.lastInstanceId⟩, s.getLastD 0, true)

/-- `add`: pops the top two elements and pushes (and returns) their sum
`operand1 + operand2` where `operand1` was the top. -/
def add (c : Calculator) (id : Int) : Calculator × Int × Bool :=
  match c.instances id with
  | none => (c, 0, false)
  | some s =>
    if s.length < 2 then (c, 0, false)
    else
      let (c1, operand1, _) := pop c id
      let (c2, operand2, _) := pop c1 id
      let (c3, _) := push c2 id (operand1 + operand2)
      (c3, operand1 + operand2, true)

/-- `sub`: pops the top two elements and pushes (and returns)
`operand1 - operand2` where `operand1` was the top. -/
def sub (c : Calculator) (id : Int) : Calculator × Int × Bool :=
  match c.instances id with
  | none => (c, 0, false)
  | some s =>
    if s.length < 2 then (c, 0, false)
    else
      let (c1, operand1, _) := pop c id
      let (c2, operand2, _) := pop c1 id
      let (c3, _) := push c2 id (operand1 - operand2)
      (c3, operand1 - operand2, true)

/-- `mul`: pops the top two elements and pushes (and returns)
`operand1 * operand2` where `operand1` was the top. -/
def mul (c : Calculator) (id : Int) : Calculator × Int × Bool :=
  match c.instances id with
  | none => (c, 0, false)
  | some s =>
    if s.length < 2 then (c, 0, false)
    else
      let (c1, operand1, _) := pop c id
      let (c2, operand2, _) := pop c1 id
      let (c3, _) := push c2 id (operand1 * operand2)
      (c3, operand1 * operand2, true)

/-- `div`: pops the top two elements; if the divisor `operand2` (the
element below the top) is zero it restores the stack by pushing
`operand2` first and then `operand1`, and fails; otherwise it pushes
(and returns) the Go quotient `operand1 / operand2` (truncation toward
zero, `Int.tdiv`). -/
def div (c : Calculator) (id : Int) : Calculator × Int × Bool :=
  match c.instances id with
  | none => (c, 0, false)
  | some s =>
    if s.length < 2 then (c, 0, false)
    else
      let (c1, operand1, _) := pop c id
      let (c2, operand2, _) := pop c1 id
      if operand2 = 0 then
        let (c3, _) := push c2 id operand2
        let (c4, _) := push c3 id operand1
        (c4, 0, false)
      else
        let (c3, _) := push c2 id (Int.tdiv operand1 operand2)
        (c3, Int.tdiv operand1 operand2, true)

/-- `inc`: pops the top element and pushes (and returns) its successor. -/
def inc (c : Calculator) (id : Int) : Calculator × Int × Bool :=
  match c.instances id with
  | none => (c, 0, false)
  | some s =>
    if s.length = 0 then (c, 0, false)
    else
      let (c1, operand, _) := pop c id
      let (c2, _) := push c1 id (operand + 1)
      (c2, operand + 1, true)

/-- `dec`: pops the top element and pushes (and returns) its predecessor. -/
def dec (c : Calculator) (id : Int) : Calculator × Int × Bool :=
  match c.instances id with
  | none => (c, 0, false)
  | some s =>
    if s.length = 0 then (c, 0, false)
    else
      let (c1, operand, _) := pop c id
      let (c2, _) := push c1 id (operand - 1)
      (c2, operand - 1, true)

/-- `get`: returns the top element without removing it. -/
def get (c : Calculator) (id : Int) : Calculator × Int × Bool :=
  match c.instances id with
  | none => (c, 0, false)
  | some s =>
    if s.length = 0 then (c, 0, false)
    else (c, s.getLastD 0, true)

/-- `ApplyCommand`: dispatch on the `Method` string, exactly mirroring the
Go `switch`; an unknown method yields `Result{false, 0}`. -/
def applyCommand (c : Calculator) (e : Entry) : Calculator × CalcResult :=
  if e.method = "create" then
    let (c1, id) := createCalculator c
    (c1, ⟨true, id⟩)
  else if e.method = "delete" then
    let (c1, ok) := deleteCalculator c e.instanceId
    (c1, ⟨ok, 0⟩)
  else if e.method = "push" then
    let (c1, ok) := push c e.instanceId e.operand
    (c1, ⟨ok, 0⟩)
  else if e.method = "pop" then
    let (c1, v, ok) := pop c e.instanceId
    (c1, ⟨ok, v⟩)
  else if e.method = "add" then
    let (c1, v, ok) := add c e.instanceId
    (c1, ⟨ok, v⟩)
  else if e.method = "sub" then
    let (c1, v, ok) := sub c e.instanceId
    (c1, ⟨ok, v⟩)
  else if e.method = "mul" then
    let (c1, v, ok) := mul c e.instanceId
    (c1, ⟨ok, v⟩)
  else if e.method = "div" then
    let (c1, v, ok) := div c e.instanceId
    (c1, ⟨ok, v⟩)
  else if e.method = "inc" then
    let (c1, v, ok) := inc c e.instanceId
    (c1, ⟨ok, v⟩)
  else if e.method = "dec" then
    let (c1, v, ok) := dec c e.instanceId
    (c1, ⟨ok, v⟩)
  else if e.method = "get" then
    let (c1, v, ok) := get c e.instanceId
    (c1, ⟨ok, v⟩)
  else (c, ⟨false, 0⟩)

/-- Applies a sequence of commands in order, collecting the results. -/
def runCalc : Calculator → List Entry → Calculator × List CalcResult
  | c, [] => (c, [])
  | c, e :: es =>
    let (c1, r) := applyCommand c e
    let (c2, rs) := runCalc c1 es
    (c2, r :: rs)

/-- The `Value` fields of the results of the `create` commands of a trace,
in order. -/
def createValues : List Entry → List CalcResult → List Int
  | e :: es, r :: rs =>
    if e.method = "create" then r.value :: createValues es rs
    else createValues es rs
  | _, _ => []

end Calc

namespace Raft

/-- The role variant `CMState` of `raft/raft.go` (`Follower`, `Candidate`,
`Leader`, `Dead`). -/
inductive CMRole
  | Follower
  | Candidate
  | Leader
  | Dead
deriving DecidableEq

/-- `LogEntry{Command interface\x7b\x7d; Term int}`; the command type is
opaque to the consensus module, so it is a type parameter here. -/
structure LogEntry (α : Type) where
  command : α
  term : Int
deriving DecidableEq

/-- The mutable per-node state of `ConsensusModule` that the claims are
about. `peerIds` holds the values of the Go map `peerIds map[int]int`
(which `NewConsensusModule` fills with `0 .. num-1`, so it contains the
node's own id). `nextIndex` and `matchIndex` model Go maps by total
functions returning the zero value `0` for unset keys.
`electionResetEvent` is a `Nat` timestamp; handlers receive the current
instant as a parameter `now`. -/
structure CMState (α : Type) where
  id : Int
  peerIds : List Int
  currentTerm : Int
  votedFor : Int
  log : List (LogEntry α)
  commitIndex : Int
  lastApplied : Int
  state : CMRole
  electionResetEvent : Nat
  nextIndex : Int → Int
  matchIndex : Int → Int

/-- The state built by `NewConsensusModule` for a server with the given
id in a cluster of `num` servers: `peerIds` = `0 .. num-1` (including the
node itself), term 0, no vote, empty log, commit and apply indices −1,
role Follower, empty progress maps. -/
def newConsensusModule (α : Type) (id : Int) (num : Nat) : CMState α :=
  { id := id
    peerIds := List.map Int.ofNat (List.range num)
    currentTerm := 0
    votedFor := -1
    log := []
    commitIndex := -1
    lastApplied := -1
    state := CMRole.Follower
    electionResetEvent := 0
    nextIndex := fun _ => 0
    matchIndex := fun _ => 0 }

/-- `RequestVoteArgs` (figure 2 of the Raft paper). -/
structure RequestVoteArgs where
  term : Int
  candidateId : Int
  lastLogIndex : Int
  lastLogTerm : Int
deriving DecidableEq

/-- `RequestVoteReply`. -/
structure RequestVoteReply where
  term : Int
  voteGranted : Bool
deriving DecidableEq

/-- `AppendEntriesArgs`. -/
structure AppendEntriesArgs (α : Type) where
  term : Int
  leaderId : Int
  prevLogIndex : Int
  prevLogTerm : Int
  entries : List (LogEntry α)
  leaderCommit : Int
deriving DecidableEq

/-- `AppendEntriesReply`. -/
structure AppendEntriesReply where
  term : Int
  success : Bool
deriving DecidableEq

/-- `intMin` from `raft.go`. -/
def intMin (a b : Int) : Int :=
  if a < b then a else b

/-- Pointwise update of a Go map modelled as a total function (map
assignment `m[k] = v`). -/
def updateFn (f : Int → Int) (k : Int) (v : Int) : Int → Int :=
  fun p => if p = k then v else f p

/-- `becomeFollower`: role Follower, adopt the term, clear the vote,
reset the election deadline to the current instant. (The Go code also
launches a fresh election timer; that effect has no bearing on any
claim.) -/
def becomeFollower (st : CMState α) (term : Int) (now : Nat) : CMState α :=
  { st with
    state := CMRole.Follower
    currentTerm := term
    votedFor := -1
    electionResetEvent := now }

/-- `startLeader`: role Leader; for every peer id in the `peerIds` table
set `nextIndex` to `len(log)` and `matchIndex` to −1. -/
def startLeader (st : CMState α) : CMState α :=
  { st with
    state := CMRole.Leader
    nextIndex := fun p => if p ∈ st.peerIds then (st.log.length : Int) else st.nextIndex p
    matchIndex := fun p => if p ∈ st.peerIds then -1 else st.matchIndex p }

/-- `lastLogIndexAndTerm`: the index and term of the last log entry, or
`(-1, -1)` for an empty log. -/
def lastLogIndexAndTerm (log : List (LogEntry α)) : Int × Int :=
  match log.getLast? with
  | some e => ((log.length : Int) - 1, e.term)
  | none => (-1, -1)

/-- The term stored at integer index `i` of a log, if the index is in
range (`cm.log[i].Term` with Go's bounds discipline). -/
def logTermAt (log : List (LogEntry α)) (i : Int) : Option Int :=
  if 0 ≤ i then (log[i.toNat]?).map LogEntry.term else none

/-- The term-upgrade prologue of `RequestVote`: become Follower at
`args.term` when the candidate's term is newer. -/
def rvTermUpgrade (st : CMState α) (args : RequestVoteArgs) (now : Nat) : CMState α :=
  if args.term > st.currentTerm then becomeFollower st args.term now else st

/-- The `RequestVote` RPC handler. A Dead node returns without writing
the reply, modelled by `none`. Otherwise: upgrade the term if
`args.term` is newer; grant iff the term matches, the vote is free or
already for this candidate, and the candidate's log is at least as
up-to-date; a grant records the vote and resets the election deadline;
the reply always carries the final `currentTerm`. -/
def requestVote (st : CMState α) (args : RequestVoteArgs) (now : Nat) :
    CMState α × Option RequestVoteReply :=
  if st.state = CMRole.Dead then (st, none)
  else if (rvTermUpgrade st args now).currentTerm = args.term ∧
      ((rvTermUpgrade st args now).votedFor = -1 ∨
        (rvTermUpgrade st args now).votedFor = args.candidateId) ∧
      (args.lastLogTerm > (lastLogIndexAndTerm st.log).2 ∨
        (args.lastLogTerm = (lastLogIndexAndTerm st.log).2 ∧
          args.lastLogIndex ≥ (lastLogIndexAndTerm st.log).1)) then
    ({ rvTermUpgrade st args now with
        votedFor := args.candidateId, electionResetEvent := now },
      some { term := (rvTermUpgrade st args now).currentTerm, voteGranted := true })
  else
    (rvTermUpgrade st args now,
      some { term := (rvTermUpgrade st args now).currentTerm, voteGranted := false })

/-- The consistency check of `AppendEntries`: `prevLogIndex == -1`, or
`prevLogIndex < len(log)` and the entry there has term `prevLogTerm`. -/
def aeConsistencyOK (log : List (LogEntry α)) (prevLogIndex prevLogTerm : Int) : Bool :=
  prevLogIndex = -1 ∨
    (prevLogIndex < (log.length : Int) ∧ logTermAt log prevLogIndex = some prevLogTerm)

/-- The length of the longest prefix on which the local log tail and the
sent entries agree term-by-term: the scan loop of `AppendEntries`
(`logInsertIndex` / `newEntriesIndex` both start at the insertion base
and advance together while both are in range and the terms agree). -/
def agreeLen : List (LogEntry α) → List (LogEntry α) → Nat
  | l :: ls, e :: es => if l.term = e.term then agreeLen ls es + 1 else 0
  | _, _ => 0

/-- The log-reconciliation step of `AppendEntries`: with insertion base
`prevLogIndex + 1`, walk to the first term mismatch; if any sent entries
remain, truncate there and append them (`append(cm.log[:logInsertIndex],
args.Entries[newEntriesIndex:]...)`), otherwise leave the log alone. -/
def reconcileLog (log entries : List (LogEntry α)) (insertBase : Nat) :
    List (LogEntry α) :=
  if agreeLen (log.drop insertBase) entries < entries.length then
    log.take (insertBase + agreeLen (log.drop insertBase) entries)
      ++ entries.drop (agreeLen (log.drop insertBase) entries)
  else log

/-- The term-upgrade prologue of `AppendEntries`: become Follower at
`args.term` when the leader's term is newer. -/
def aeTermUpgrade (st : CMState α) (args : AppendEntriesArgs α) (now : Nat) : CMState α :=
  if args.term > st.currentTerm then becomeFollower st args.term now else st

/-- The equal-term prologue of `AppendEntries`: a non-Follower becomes
Follower, and the election deadline is reset in any case. -/
def aeRoleFix (st : CMState α) (args : AppendEntriesArgs α) (now : Nat) : CMState α :=
  if st.state ≠ CMRole.Follower then becomeFollower st args.term now
  else { st with electionResetEvent := now }

/-- The success path of `AppendEntries` after the consistency check
(`st` is already term-upgraded and role-fixed): reconcile the log with
the sent entries, then, if `args.leaderCommit > commitIndex`, set
`commitIndex = min(args.leaderCommit, len(log)-1)` over the reconciled
log and post a commit-ready signal (second component). -/
def aeAccept (st : CMState α) (args : AppendEntriesArgs α) : CMState α × Bool :=
  if args.leaderCommit > st.commitIndex then
    ({ st with
        log := reconcileLog st.log args.entries (args.prevLogIndex + 1).toNat
        commitIndex := intMin args.leaderCommit
          (((reconcileLog st.log args.entries (args.prevLogIndex + 1).toNat).length : Int)
            - 1) },
      true)
  else
    ({ st with log := reconcileLog st.log args.entries (args.prevLogIndex + 1).toNat },
      false)

/-- The `AppendEntries` RPC handler. Returns the new state, the reply
(`none` for a Dead node, which returns without writing it), and whether
a commit-ready signal was posted on `newCommitReadyChan`. -/
def appendEntries (st : CMState α) (args : AppendEntriesArgs α) (now : Nat) :
    CMState α × Option AppendEntriesReply × Bool :=
  if st.state = CMRole.Dead then (st, none, false)
  else if args.term = (aeTermUpgrade st args now).currentTerm then
    if aeConsistencyOK (aeRoleFix (aeTermUpgrade st args now) args now).log
        args.prevLogIndex args.prevLogTerm then
      ((aeAccept (aeRoleFix (aeTermUpgrade st args now) args now) args).1,
        some { term := (aeAccept (aeRoleFix (aeTermUpgrade st args now) args now)
                  args).1.currentTerm,
               success := true },
        (aeAccept (aeRoleFix (aeTermUpgrade st args now) args now) args).2)
    else
      (aeRoleFix (aeTermUpgrade st args now) args now,
        some { term := (aeRoleFix (aeTermUpgrade st args now) args now).currentTerm,
               success := false },
        false)
  else
    (aeTermUpgrade st args now,
      some { term := (aeTermUpgrade st args now).currentTerm, success := false },
      false)

/-- The vote-tally step of `startElection`'s reply handler, given the
saved election term and the running `votesReceived` count: ignore the
reply unless still Candidate; step down on a newer reply term; on a
granted vote in the saved term increment the count and become Leader
when `votesReceived*2 > len(peerIds)+1`. -/
def handleRequestVoteReply (st : CMState α) (savedCurrentTerm : Int) (votes : Nat)
    (reply : RequestVoteReply) (now : Nat) : CMState α × Nat :=
  if st.state ≠ CMRole.Candidate then (st, votes)
  else if reply.term > savedCurrentTerm then (becomeFollower st reply.term now, votes)
  else if reply.term = savedCurrentTerm ∧ reply.voteGranted then
    let v := votes + 1
    if v * 2 > st.peerIds.length + 1 then (startLeader st, v) else (st, v)
  else (st, votes)

/-- The per-index commit test of the leader's scan loop in
`leaderSendAEs`: index `j` lies beyond the current `commitIndex`, the
entry there has the current term, and `matchCount*2 > len(peerIds)+1`
where `matchCount` counts 1 (the leader) plus every entry `p` of the
`peerIds` table with `matchIndex[p] ≥ j`. -/
def commitQualifies (st : CMState α) (j : Nat) : Bool :=
  decide (st.commitIndex + 1 ≤ (j : Int)) &&
  decide (logTermAt st.log (j : Int) = some st.currentTerm) &&
  decide ((1 + (st.peerIds.filter (fun p => decide ((j : Int) ≤ st.matchIndex p))).length) * 2
            > st.peerIds.length + 1)

/-- The commit-advance loop of `leaderSendAEs`
(`for i := cm.commitIndex + 1; i < len(cm.log); i++ { ... }`): the final
`commitIndex` is the last index of the log that qualifies, or the old
`commitIndex` if none does. (The Go loop starts at `commitIndex + 1`;
here the range runs over the whole log and the lower bound is part of
`commitQualifies`, which is equivalent because indices at or below
`commitIndex` never qualify.) -/
def leaderAdvanceCommit (st : CMState α) : Int :=
  (List.range st.log.length).foldl
    (fun ci j => if commitQualifies st j then (j : Int) else ci) st.commitIndex

/-- The progress update of a successful reply in `leaderSendAEs`:
`nextIndex[peerId] = ni + len(entries)` and
`matchIndex[peerId] = nextIndex[peerId] - 1`. -/
def aeReplyProgressUpdate (st : CMState α) (peerId ni : Int) (numEntries : Nat) :
    CMState α :=
  { st with
    nextIndex := updateFn st.nextIndex peerId (ni + (numEntries : Int))
    matchIndex := updateFn st.matchIndex peerId (ni + (numEntries : Int) - 1) }

/-- The reply handler of `leaderSendAEs` for one peer, given the saved
term, the saved `ni = nextIndex[peer]` and the number of entries that
were sent: step down on a newer reply term; if still Leader at the saved
term, on success update `nextIndex`/`matchIndex` for the peer and run
the commit-advance loop, posting commit-ready and trigger-AE signals
when `commitIndex` changed; on failure decrement `nextIndex`. Returns
(state, commit-ready posted, trigger-AE posted). -/
def handleAppendEntriesReply (st : CMState α) (savedCurrentTerm : Int) (peerId : Int)
    (ni : Int) (numEntries : Nat) (reply : AppendEntriesReply) (now : Nat) :
    CMState α × Bool × Bool :=
  if reply.term > st.currentTerm then (becomeFollower st reply.term now, false, false)
  else if st.state = CMRole.Leader ∧ savedCurrentTerm = reply.term then
    if reply.success then
      let st1 := aeReplyProgressUpdate st peerId ni numEntries
      let newCI := leaderAdvanceCommit st1
      ({ st1 with commitIndex := newCI },
        decide (newCI ≠ st1.commitIndex), decide (newCI ≠ st1.commitIndex))
    else
      ({ st with nextIndex := updateFn st.nextIndex peerId (ni - 1) }, false, false)
  else (st, false, false)

/-- Modelled from the spec (§4.3): the commit rule as the specification
words it — "advance `commitIndex` to the largest `i` such that
`log[i].term == currentTerm` AND a strict majority of nodes (self +
peers) have `matchIndex ≥ i`" — i.e. the leader itself always counts,
each other node counts when its `matchIndex` reaches `i`, and the count
must exceed half of the cluster size `len(peerIds)`. This definition
exists only to be compared with the source's `leaderAdvanceCommit`. -/
def specCommitQualifies (st : CMState α) (j : Nat) : Bool :=
  decide (st.commitIndex + 1 ≤ (j : Int)) &&
  decide (logTermAt st.log (j : Int) = some st.currentTerm) &&
  decide ((1 + (st.peerIds.filter
      (fun p => decide (p ≠ st.id ∧ (j : Int) ≤ st.matchIndex p))).length) * 2
        > st.peerIds.length)

/-- Modelled from the spec (§4.3): the largest index that qualifies
under `specCommitQualifies`, or the old `commitIndex` if none does. -/
def specAdvanceCommit (st : CMState α) : Int :=
  (List.range st.log.length).foldl
    (fun ci j => if specCommitQualifies st j then (j : Int) else ci) st.commitIndex

/-- `CommittedResult{Result interface\x7b\x7d; Index int}`; the result
type is opaque to the consensus module. -/
structure CommittedResult (ρ : Type) where
  result : ρ
  index : Int
deriving DecidableEq

/-- The wait loop of `Submit`, as a function of the sequence of
`CommittedResult` values arriving on `committedResultChan` before the
650 ms ticker fires: a result whose index is not the submitted one is
re-enqueued on the channel (collected in the second component, in
arrival order) and the wait continues; the first result with the
submitted index is returned; an exhausted arrival sequence is the
ticker firing, returning nothing. -/
def submitWait (targetIndex : Int) :
    List (CommittedResult ρ) → Option ρ × List (CommittedResult ρ)
  | [] => (none, [])
  | r :: rs =>
    if r.index = targetIndex then (some r.result, [])
    else
      let (res, requeued) := submitWait targetIndex rs
      (res, r :: requeued)

/-- The ticker duration of `Submit`, in milliseconds
(`time.NewTicker(650 * time.Millisecond)`). -/
def submitTimeoutMs : Nat := 650

/-- The outcome of one `Submit` call: the node state afterwards, the
value returned to the caller (`res`, `ok`), whether a wake was posted on
`triggerAEChan`, and the results the wait loop re-enqueued. -/
structure SubmitOutcome (α ρ : Type) where
  st : CMState α
  res : Option ρ
  ok : Bool
  triggeredAE : Bool
  requeued : List (CommittedResult ρ)

/-- `Submit(command)`: a non-Leader returns `(nil, false)` at once and
changes nothing; a Leader appends `{command, currentTerm}` to its log
(so at index `len(log)`), posts a wake on `triggerAEChan`, and runs the
wait loop on the arriving committed results, returning `(nil, false)`
when the ticker fires first. -/
def submit (st : CMState α) (command : α) (arrivals : List (CommittedResult ρ)) :
    SubmitOutcome α ρ :=
  if st.state = CMRole.Leader then
    let newLog := st.log ++ [{ command := command, term := st.currentTerm }]
    let currentLogIndex : Int := (newLog.length : Int) - 1
    let (res, requeued) := submitWait currentLogIndex arrivals
    { st := { st with log := newLog }
      res := res
      ok := res.isSome
      triggeredAE := true
      requeued := requeued }
  else
    { st := st, res := none, ok := false, triggeredAE := false, requeued := [] }

end Raft

/-! ## Supporting lemmas: calculator -/

namespace Calc

/-- `push` never changes the instance-id counter. -/
theorem push_lid (c : Calculator) (id v : Int) :
    (push c id v).1.lastInstanceId = c.lastInstanceId := by
  unfold push
  rcases hi : c.instances id with _ | s <;> rfl

/-- `pop` never changes the instance-id counter. -/
theorem pop_lid (c : Calculator) (id : Int) :
    (pop c id).1.lastInstanceId = c.lastInstanceId := by
  unfold pop
  rcases hi : c.instances id with _ | s
  · rfl
  · dsimp only
    split <;> rfl

/-- `deleteCalculator` never changes the instance-id counter. -/
theorem deleteCalculator_lid (c : Calculator) (id : Int) :
    (deleteCalculator c id).1.lastInstanceId = c.lastInstanceId := by
  unfold deleteCalculator
  rcases hi : c.instances id with _ | s <;> rfl

/-- `add` never changes the instance-id counter. -/
theorem add_lid (c : Calculator) (id : Int) :
    (add c id).1.lastInstanceId = c.lastInstanceId := by
  unfold add
  rcases hi : c.instances id with _ | s
  · rfl
  all_goals dsimp only
  split
  · rfl
  · rcases hp : pop c id with ⟨c1, o1, b1⟩
    rcases hq : pop c1 id with ⟨c2, o2, b2⟩
    rcases hr : push c2 id (o1 + o2) with ⟨c3, b3⟩
    simp only [hp, hq, hr]
    have e1 := pop_lid c id; rw [hp] at e1
    have e2 := pop_lid c1 id; rw [hq] at e2
    have e3 := push_lid c2 id (o1 + o2); rw [hr] at e3
    exact e3.trans (e2.trans e1)

/-- `sub` never changes the instance-id counter. -/
theorem sub_lid (c : Calculator) (id : Int) :
    (sub c id).1.lastInstanceId = c.lastInstanceId := by
  unfold sub
  rcases hi : c.instances id with _ | s
  · rfl
  all_goals dsimp only
  split
  · rfl
  · rcases hp : pop c id with ⟨c1, o1, b1⟩
    rcases hq : pop c1 id with ⟨c2, o2, b2⟩
    rcases hr : push c2 id (o1 - o2) with ⟨c3, b3⟩
    simp only [hp, hq, hr]
    have e1 := pop_lid c id; rw [hp] at e1
    have e2 := pop_lid c1 id; rw [hq] at e2
    have e3 := push_lid c2 id (o1 - o2); rw [hr] at e3
    exact e3.trans (e2.trans e1)

/-- `mul` never changes the instance-id counter. -/
theorem mul_lid (c : Calculator) (id : Int) :
    (mul c id).1.lastInstanceId = c.lastInstanceId := by
  unfold mul
  rcases hi : c.instances id with _ | s
  · rfl
  all_goals dsimp only
  split
  · rfl
  · rcases hp : pop c id with ⟨c1, o1, b1⟩
    rcases hq : pop c1 id with ⟨c2, o2, b2⟩
    rcases hr : push c2 id (o1 * o2) with ⟨c3, b3⟩
    simp only [hp, hq, hr]
    have e1 := pop_lid c id; rw [hp] at e1
    have e2 := pop_lid c1 id; rw [hq] at e2
    have e3 := push_lid c2 id (o1 * o2); rw [hr] at e3
    exact e3.trans (e2.trans e1)

/-- `div` never changes the instance-id counter. -/
theorem div_lid (c : Calculator) (id : Int) :
    (div c id).1.lastInstanceId = c.lastInstanceId := by
  unfold div
  rcases hi : c.instances id with _ | s
  · rfl
  all_goals dsimp only
  split
  · rfl
  · rcases hp : pop c id with ⟨c1, o1, b1⟩
    rcases hq : pop c1 id with ⟨c2, o2, b2⟩
    have e1 := pop_lid c id; rw [hp] at e1
    have e2 := pop_lid c1 id; rw [hq] at e2
    simp only [hp, hq]
    split
    · rcases hr : push c2 id o2 with ⟨c3, b3⟩
      rcases hs : push c3 id o1 with ⟨c4, b4⟩
      simp only [hr, hs]
      have e3 := push_lid c2 id o2; rw [hr] at e3
      have e4 := push_lid c3 id o1; rw [hs] at e4
      exact e4.trans (e3.trans (e2.trans e1))
    · rcases hr : push c2 id (Int.tdiv o1 o2) with ⟨c3, b3⟩
      simp only [hr]
      have e3 := push_lid c2 id (Int.tdiv o1 o2); rw [hr] at e3
      exact e3.trans (e2.trans e1)

/-- `inc` never changes the instance-id counter. -/
theorem inc_lid (c : Calculator) (id : Int) :
    (inc c id).1.lastInstanceId = c.lastInstanceId := by
  unfold inc
  rcases hi : c.instances id with _ | s
  · rfl
  all_goals dsimp only
  split
  · rfl
  · rcases hp : pop c id with ⟨c1, o1, b1⟩
    rcases hr : push c1 id (o1 + 1) with ⟨c2, b2⟩
    simp only [hp, hr]
    have e1 := pop_lid c id; rw [hp] at e1
    have e2 := push_lid c1 id (o1 + 1); rw [hr] at e2
    exact e2.trans e1

/-- `dec` never changes the instance-id counter. -/
theorem dec_lid (c : Calculator) (id : Int) :
    (dec c id).1.lastInstanceId = c.lastInstanceId := by
  unfold dec
  rcases hi : c.instances id with _ | s
  · rfl
  all_goals dsimp only
  split
  · rfl
  · rcases hp : pop c id with ⟨c1, o1, b1⟩
    rcases hr : push c1 id (o1 - 1) with ⟨c2, b2⟩
    simp only [hp, hr]
    have e1 := pop_lid c id; rw [hp] at e1
    have e2 := push_lid c1 id (o1 - 1); rw [hr] at e2
    exact e2.trans e1

/-- `get` never changes the instance-id counter. -/
theorem get_lid (c : Calculator) (id : Int) :
    (get c id).1.lastInstanceId = c.lastInstanceId := by
  unfold get
  rcases hi : c.instances id with _ | s
  · rfl
  · dsimp only
    split <;> rfl

/-- `ApplyCommand` on a `create` returns `LastInstanceId + 1` both as the
result value and as the new counter. -/
theorem applyCommand_create (c : Calculator) (e : Entry) (h : e.method = "create") :
    (applyCommand c e).2.value = c.lastInstanceId + 1 ∧
    (applyCommand c e).1.lastInstanceId = c.lastInstanceId + 1 := by
  simp [applyCommand, h, createCalculator]

/-- `ApplyCommand` on anything but a `create` leaves the counter alone. -/
theorem applyCommand_not_create (c : Calculator) (e : Entry) (h : e.method ≠ "create") :
    (applyCommand c e).1.lastInstanceId = c.lastInstanceId := by
  unfold applyCommand
  rw [if_neg h]
  split
  · rcases hx : deleteCalculator c e.instanceId with ⟨c1, b1⟩
    have e1 := deleteCalculator_lid c e.instanceId; rw [hx] at e1
    simp only [hx]
    exact e1
  split
  · rcases hx : push c e.instanceId e.operand with ⟨c1, b1⟩
    have e1 := push_lid c e.instanceId e.operand; rw [hx] at e1
    simp only [hx]
    exact e1
  split
  · rcases hx : pop c e.instanceId with ⟨c1, v1, b1⟩
    have e1 := pop_lid c e.instanceId; rw [hx] at e1
    simp only [hx]
    exact e1
  split
  · rcases hx : add c e.instanceId with ⟨c1, v1, b1⟩
    have e1 := add_lid c e.instanceId; rw [hx] at e1
    simp only [hx]
    exact e1
  split
  · rcases hx : sub c e.instanceId with ⟨c1, v1, b1⟩
    have e1 := sub_lid c e.instanceId; rw [hx] at e1
    simp only [hx]
    exact e1
  split
  · rcases hx : mul c e.instanceId with ⟨c1, v1, b1⟩
    have e1 := mul_lid c e.instanceId; rw [hx] at e1
    simp only [hx]
    exact e1
  split
  · rcases hx : div c e.instanceId with ⟨c1, v1, b1⟩
    have e1 := div_lid c e.instanceId; rw [hx] at e1
    simp only [hx]
    exact e1
  split
  · rcases hx : inc c e.instanceId with ⟨c1, v1, b1⟩
    have e1 := inc_lid c e.instanceId; rw [hx] at e1
    simp only [hx]
    exact e1
  split
  · rcases hx : dec c e.instanceId with ⟨c1, v1, b1⟩
    have e1 := dec_lid c e.instanceId; rw [hx] at e1
    simp only [hx]
    exact e1
  split
  · rcases hx : get c e.instanceId with ⟨c1, v1, b1⟩
    have e1 := get_lid c e.instanceId; rw [hx] at e1
    simp only [hx]
    exact e1
  rfl

/-- The instance-id counter never decreases under any command. -/
theorem applyCommand_lid_mono (c : Calculator) (e : Entry) :
    c.lastInstanceId ≤ (applyCommand c e).1.lastInstanceId := by
  by_cases h : e.method = "create"
  · rw [(applyCommand_create c e h).2]; omega
  · rw [applyCommand_not_create c e h]

/-- Running any trace: the `create` values are pairwise increasing and
all exceed the starting counter. -/
theorem runCalc_create_values (es : List Entry) (c : Calculator) :
    List.Pairwise (· < ·) (createValues es (runCalc c es).2) ∧
    ∀ v ∈ createValues es (runCalc c es).2, c.lastInstanceId < v := by
  induction es generalizing c with
  | nil => simp [runCalc, createValues]
  | cons e es ih =>
    rcases ha : applyCommand c e with ⟨c1, r⟩
    rcases hb : runCalc c1 es with ⟨c2, rs⟩
    have hrun : runCalc c (e :: es) = (c2, r :: rs) := by
      simp [runCalc, ha, hb]
    obtain ⟨ihp, ihb⟩ := ih c1
    rw [hb] at ihp ihb
    by_cases hm : e.method = "create"
    · obtain ⟨hv, hl⟩ := applyCommand_create c e hm
      rw [ha] at hv hl
      dsimp only at hv hl
      have hcv : createValues (e :: es) (r :: rs) = r.value :: createValues es rs := by
        simp [createValues, hm]
      rw [hrun]
      dsimp only
      rw [hcv]
      constructor
      · rw [List.pairwise_cons]
        refine ⟨fun v hv' => ?_, ihp⟩
        have := ihb v hv'
        omega
      · intro v hv'
        rcases List.mem_cons.mp hv' with h | h
        · omega
        · have := ihb v h
          omega
    · have hl := applyCommand_not_create c e hm
      rw [ha] at hl
      dsimp only at hl
      have hcv : createValues (e :: es) (r :: rs) = createValues es rs := by
        simp [createValues, hm]
      rw [hrun]
      dsimp only
      rw [hcv]
      refine ⟨ihp, fun v hv' => ?_⟩
      have := ihb v hv'
      omega

end Calc

/-! ## Claim theorems: calculator -/

/-- C8: on a calculator instance whose stack is `[0, 10]` (after
`push 0` then `push 10`), `div` returns `Result = false`, `Value = 0`,
and the instance's stack is restored to `[0, 10]` (the divisor `0`
re-pushed first, hence at the bottom). -/
theorem C8_div_by_zero :
    (Calc.runCalc Calc.newCalculator
        [⟨"create", 0, 0⟩, ⟨"push", 1, 0⟩, ⟨"push", 1, 10⟩, ⟨"div", 1, 0⟩]).2 =
      [⟨true, 1⟩, ⟨true, 0⟩, ⟨true, 0⟩, ⟨false, 0⟩] ∧
    (Calc.runCalc Calc.newCalculator
        [⟨"create", 0, 0⟩, ⟨"push", 1, 0⟩, ⟨"push", 1, 10⟩, ⟨"div", 1, 0⟩]).1.instances 1 =
      some [0, 10] := by
  constructor <;> rfl

/-- C9: the sequence create; push 1; push 2; add; push 5; sub; push 7;
mul; push 42; div; inc; dec; delete on a fresh calculator yields
`Result = true` at every step, with add → 3, sub → 2, mul → 14,
div → 3, inc → 4, dec → 3 (each binary operation combines the popped
top with the popped second element in that operand order). -/
theorem C9_arithmetic_sequence :
    (Calc.runCalc Calc.newCalculator
        [⟨"create", 0, 0⟩, ⟨"push", 1, 1⟩, ⟨"push", 1, 2⟩, ⟨"add", 1, 0⟩,
         ⟨"push", 1, 5⟩, ⟨"sub", 1, 0⟩, ⟨"push", 1, 7⟩, ⟨"mul", 1, 0⟩,
         ⟨"push", 1, 42⟩, ⟨"div", 1, 0⟩, ⟨"inc", 1, 0⟩, ⟨"dec", 1, 0⟩,
         ⟨"delete", 1, 0⟩]).2 =
      [⟨true, 1⟩, ⟨true, 0⟩, ⟨true, 0⟩, ⟨true, 3⟩, ⟨true, 0⟩, ⟨true, 2⟩,
       ⟨true, 0⟩, ⟨true, 14⟩, ⟨true, 0⟩, ⟨true, 3⟩, ⟨true, 4⟩, ⟨true, 3⟩,
       ⟨true, 0⟩] := by
  rfl

/-- C10: calculator instance ids are never reused — over any command
trace on a fresh calculator, the values returned by the `create`
commands are strictly increasing and all at least 1, because the id
counter only increments and `delete` never lowers it. -/
theorem C10_create_ids_strictly_increase (es : List Calc.Entry) :
    List.Pairwise (· < ·)
        (Calc.createValues es (Calc.runCalc Calc.newCalculator es).2) ∧
    ∀ v ∈ Calc.createValues es (Calc.runCalc Calc.newCalculator es).2, 1 ≤ v := by
  obtain ⟨hp, hb⟩ := Calc.runCalc_create_values es Calc.newCalculator
  refine ⟨hp, fun v hv => ?_⟩
  have := hb v hv
  simp only [Calc.newCalculator] at this
  omega

/-- Witness for C10: on the trace create; delete 1; create the two
create values are 1 and 2, pairwise increasing, and the membership
obligation is discharged at the value 2. -/
theorem C10_create_ids_strictly_increase_witness :
    List.Pairwise (· < ·)
        (Calc.createValues [⟨"create", 0, 0⟩, ⟨"delete", 1, 0⟩, ⟨"create", 0, 0⟩]
          (Calc.runCalc Calc.newCalculator
            [⟨"create", 0, 0⟩, ⟨"delete", 1, 0⟩, ⟨"create", 0, 0⟩]).2) ∧
    (1 : Int) ≤ 2 :=
  ⟨(C10_create_ids_strictly_increase
      [⟨"create", 0, 0⟩, ⟨"delete", 1, 0⟩, ⟨"create", 0, 0⟩]).1,
   (C10_create_ids_strictly_increase
      [⟨"create", 0, 0⟩, ⟨"delete", 1, 0⟩, ⟨"create", 0, 0⟩]).2 2 (by decide)⟩

/-! ## Supporting lemmas: leader commit scan -/

namespace Raft

/-- The scanning fold over `List.range n` keeps the largest hit of `p`:
every hit below `n` is bounded by the result, and the result is either
the base or itself a hit. -/
theorem foldlScan_spec (p : Nat → Bool) (b : Int) (n : Nat) :
    (∀ j, j < n → p j = true →
        (j : Int) ≤ (List.range n).foldl (fun ci j => if p j then (j : Int) else ci) b) ∧
    ((List.range n).foldl (fun ci j => if p j then (j : Int) else ci) b = b ∨
      ∃ j, j < n ∧ p j = true ∧
        (List.range n).foldl (fun ci j => if p j then (j : Int) else ci) b = (j : Int)) := by
  induction n with
  | zero => simp
  | succ n ih =>
    rw [List.range_succ, List.foldl_append]
    simp only [List.foldl_cons, List.foldl_nil]
    rcases hp : p n with _ | _
    · simp only [hp, Bool.false_eq_true, if_false]
      refine ⟨fun j hj hpj => ?_, ?_⟩
      · have hjn : j < n := by
          rcases Nat.lt_succ_iff_lt_or_eq.mp hj with h | h
          · exact h
          · exfalso; rw [h, hp] at hpj; cases hpj
        exact ih.1 j hjn hpj
      · rcases ih.2 with h | ⟨j, hj, hpj, he⟩
        · exact Or.inl h
        · exact Or.inr ⟨j, Nat.lt_succ_of_lt hj, hpj, he⟩
    · simp only [hp, if_true]
      refine ⟨fun j hj hpj => ?_, Or.inr ⟨n, Nat.lt_succ_self n, hp, rfl⟩⟩
      rcases Nat.lt_succ_iff_lt_or_eq.mp hj with h | h
      · exact_mod_cast Nat.le_of_lt h
      · rw [h]

/-- `leaderAdvanceCommit` computes the largest index of the log that
passes `commitQualifies`, or leaves `commitIndex` alone when none does. -/
theorem leaderAdvanceCommit_spec (st : CMState α) :
    (∀ j, j < st.log.length → commitQualifies st j = true →
        (j : Int) ≤ leaderAdvanceCommit st) ∧
    (leaderAdvanceCommit st = st.commitIndex ∨
      ∃ j, j < st.log.length ∧ commitQualifies st j = true ∧
        leaderAdvanceCommit st = (j : Int)) :=
  foldlScan_spec (commitQualifies st) st.commitIndex st.log.length

/-- An index that passes `commitQualifies` lies above `commitIndex` and
carries the current term. -/
theorem commitQualifies_spec (st : CMState α) (j : Nat)
    (h : commitQualifies st j = true) :
    st.commitIndex < (j : Int) ∧ logTermAt st.log (j : Int) = some st.currentTerm := by
  have h' := h
  unfold commitQualifies at h'
  simp only [Bool.and_eq_true, decide_eq_true_eq] at h'
  exact ⟨by omega, h'.1.2⟩

end Raft

/-! ## Claim theorems: raft -/

/-- C1, counterexample to the claim as stated: a 3-node leader (id 0,
`peerIds = [0,1,2]`, one term-1 entry, term 1, `commitIndex = -1`)
processes a successful reply from peer 1 that sets `matchIndex[1] = 0`.
By the specification's rule — largest `i` with the current term such
that a strict majority of nodes (self + peers) have `matchIndex ≥ i` —
the commit index should advance to 0 (`specAdvanceCommit` of the
post-state is 0: self plus peer 1 is 2 of 3 nodes), but the code leaves
`commitIndex = -1` because it requires `matchCount*2 > len(peerIds)+1`,
i.e. 3 of 3. -/
theorem C1_counterexample :
    Raft.specAdvanceCommit
        (Raft.handleAppendEntriesReply
          { id := 0, peerIds := [0, 1, 2], currentTerm := 1, votedFor := 0,
            log := [{ command := 0, term := 1 }], commitIndex := -1, lastApplied := -1,
            state := Raft.CMRole.Leader, electionResetEvent := 0,
            nextIndex := fun _ => 1, matchIndex := fun _ => -1 }
          1 1 1 0 { term := 1, success := true } 0).1 = 0 ∧
    (Raft.handleAppendEntriesReply
          { id := 0, peerIds := [0, 1, 2], currentTerm := 1, votedFor := 0,
            log := [{ command := (0 : Int), term := 1 }], commitIndex := -1, lastApplied := -1,
            state := Raft.CMRole.Leader, electionResetEvent := 0,
            nextIndex := fun _ => 1, matchIndex := fun _ => -1 }
          1 1 1 0 { term := 1, success := true } 0).1.commitIndex = -1 := by
  constructor <;> rfl

/-- C1 (amended): after a successful AppendEntries reply, while still
Leader at the saved term, the leader first updates the peer's progress
(`aeReplyProgressUpdate`) and then advances `commitIndex` to the largest
index of the log that passes `commitQualifies` — entry term equal to
`currentTerm` and `matchCount*2 > len(peerIds)+1`, where `matchCount`
counts 1 for the leader plus every entry `p` of the `peerIds` table
(which includes the leader itself) with `matchIndex[p] ≥ i` — or leaves
it unchanged if no index qualifies; any advancement goes to an entry of
the current term and strictly upward. -/
theorem C1_amended_commit_advance (st : Raft.CMState Int)
    (savedCurrentTerm peerId ni : Int) (numEntries : Nat)
    (reply : Raft.AppendEntriesReply) (now : Nat)
    (hLeader : st.state = Raft.CMRole.Leader)
    (hSaved : st.currentTerm = savedCurrentTerm)
    (hTerm : reply.term = savedCurrentTerm)
    (hSuccess : reply.success = true) :
    (Raft.handleAppendEntriesReply st savedCurrentTerm peerId ni numEntries reply now).1.commitIndex
        = Raft.leaderAdvanceCommit (Raft.aeReplyProgressUpdate st peerId ni numEntries) ∧
    (∀ j, j < st.log.length →
        Raft.commitQualifies (Raft.aeReplyProgressUpdate st peerId ni numEntries) j = true →
        (j : Int) ≤ (Raft.handleAppendEntriesReply st savedCurrentTerm peerId ni numEntries
            reply now).1.commitIndex) ∧
    ((Raft.handleAppendEntriesReply st savedCurrentTerm peerId ni numEntries reply now).1.commitIndex
          = st.commitIndex ∨
      ∃ j, j < st.log.length ∧
        Raft.commitQualifies (Raft.aeReplyProgressUpdate st peerId ni numEntries) j = true ∧
        (Raft.handleAppendEntriesReply st savedCurrentTerm peerId ni numEntries
            reply now).1.commitIndex = (j : Int)) ∧
    ((Raft.handleAppendEntriesReply st savedCurrentTerm peerId ni numEntries reply now).1.commitIndex
          ≠ st.commitIndex →
      st.commitIndex <
          (Raft.handleAppendEntriesReply st savedCurrentTerm peerId ni numEntries
            reply now).1.commitIndex ∧
      Raft.logTermAt st.log
          ((Raft.handleAppendEntriesReply st savedCurrentTerm peerId ni numEntries
            reply now).1.commitIndex) = some st.currentTerm) := by
  have hngt : ¬ reply.term > st.currentTerm := by omega
  have hcond : st.state = Raft.CMRole.Leader ∧ savedCurrentTerm = reply.term :=
    ⟨hLeader, by omega⟩
  have hout : (Raft.handleAppendEntriesReply st savedCurrentTerm peerId ni numEntries
        reply now).1.commitIndex
      = Raft.leaderAdvanceCommit (Raft.aeReplyProgressUpdate st peerId ni numEntries) := by
    unfold Raft.handleAppendEntriesReply
    rw [if_neg hngt, if_pos hcond, if_pos hSuccess]
  obtain ⟨hub, hcases⟩ :=
    Raft.leaderAdvanceCommit_spec (Raft.aeReplyProgressUpdate st peerId ni numEntries)
  have hlog : (Raft.aeReplyProgressUpdate st peerId ni numEntries).log = st.log := rfl
  have hci : (Raft.aeReplyProgressUpdate st peerId ni numEntries).commitIndex
      = st.commitIndex := rfl
  refine ⟨hout, ?_, ?_, ?_⟩
  · intro j hj hq
    rw [hout]
    exact hub j (by rw [hlog]; exact hj) hq
  · rw [hout, ← hci]
    rw [hlog] at hcases
    exact hcases
  · intro hne
    rw [hout] at hne ⊢
    rw [hci] at hcases
    rcases hcases with h | ⟨j, hj, hq, he⟩
    · exact absurd h hne
    · obtain ⟨hlt, hterm⟩ := Raft.commitQualifies_spec _ j hq
      rw [hci] at hlt
      rw [he]
      exact ⟨hlt, hterm⟩

/-- Witness for C1 (amended): a 3-node leader whose peer 2 already has
`matchIndex = 0` processes a successful reply from peer 1 that also
brings `matchIndex[1]` to 0; index 0 then qualifies and the advanced
`commitIndex` is at least 0. -/
theorem C1_amended_commit_advance_witness :
    (0 : Int) ≤ (Raft.handleAppendEntriesReply
        { id := 0, peerIds := [0, 1, 2], currentTerm := 1, votedFor := 0,
          log := [{ command := (0 : Int), term := 1 }], commitIndex := -1, lastApplied := -1,
          state := Raft.CMRole.Leader, electionResetEvent := 0,
          nextIndex := fun _ => 1,
          matchIndex := fun p => if p = 2 then 0 else -1 }
        1 1 1 0 { term := 1, success := true } 0).1.commitIndex :=
  (C1_amended_commit_advance
      { id := 0, peerIds := [0, 1, 2], currentTerm := 1, votedFor := 0,
        log := [{ command := (0 : Int), term := 1 }], commitIndex := -1, lastApplied := -1,
        state := Raft.CMRole.Leader, electionResetEvent := 0,
        nextIndex := fun _ => 1,
        matchIndex := fun p => if p = 2 then 0 else -1 }
      1 1 1 0 { term := 1, success := true } 0 rfl rfl rfl rfl).2.1 0
    (by decide) (by decide)

/-- C2: a candidate tallying a granted vote in its saved election term
becomes Leader exactly when the votes received (including the self-vote)
satisfy `votes*2 > N+1`, where `N = len(peerIds)` is the number of peer
slots including the node itself (the `peerIds` table built by
`NewConsensusModule` for a cluster of `num` servers has `num` entries
and contains the node's own id). -/
theorem C2_election_win_threshold (st : Raft.CMState Int) (savedCurrentTerm : Int)
    (votes : Nat) (reply : Raft.RequestVoteReply) (now : Nat)
    (hCand : st.state = Raft.CMRole.Candidate)
    (hTerm : reply.term = savedCurrentTerm)
    (hGrant : reply.voteGranted = true) :
    (Raft.handleRequestVoteReply st savedCurrentTerm votes reply now).2 = votes + 1 ∧
    ((Raft.handleRequestVoteReply st savedCurrentTerm votes reply now).1.state
        = Raft.CMRole.Leader ↔ (votes + 1) * 2 > st.peerIds.length + 1) ∧
    (∀ idn num : Nat, idn < num →
        (Raft.newConsensusModule Int (idn : Int) num).peerIds.length = num ∧
        (idn : Int) ∈ (Raft.newConsensusModule Int (idn : Int) num).peerIds) := by
  have hno : ¬ st.state ≠ Raft.CMRole.Candidate := by simp [hCand]
  have hngt : ¬ reply.term > savedCurrentTerm := by omega
  have hcond : reply.term = savedCurrentTerm ∧ reply.voteGranted := ⟨hTerm, hGrant⟩
  have hslots : ∀ idn num : Nat, idn < num →
      (Raft.newConsensusModule Int (idn : Int) num).peerIds.length = num ∧
      (idn : Int) ∈ (Raft.newConsensusModule Int (idn : Int) num).peerIds := by
    intro idn num h
    constructor
    · show (List.map Int.ofNat (List.range num)).length = num
      rw [List.length_map, List.length_range]
    · show (idn : Int) ∈ List.map Int.ofNat (List.range num)
      exact List.mem_map.mpr ⟨idn, List.mem_range.mpr h, rfl⟩
  unfold Raft.handleRequestVoteReply
  rw [if_neg hno, if_neg hngt, if_pos hcond]
  by_cases hwin : (votes + 1) * 2 > st.peerIds.length + 1
  · rw [if_pos hwin]
    exact ⟨rfl, by simp [Raft.startLeader, hwin], hslots⟩
  · rw [if_neg hwin]
    refine ⟨rfl, ?_, hslots⟩
    simp only [hCand]
    constructor
    · intro h; cases h
    · intro h; exact absurd h hwin

/-- Witness for C2: a 3-node candidate holding 2 votes receives a third
granted vote in its saved term; 3·2 > 3+1, so it becomes Leader. -/
theorem C2_election_win_threshold_witness :
    (Raft.handleRequestVoteReply
        { id := 0, peerIds := [0, 1, 2], currentTerm := 1, votedFor := 0,
          log := ([] : List (Raft.LogEntry Int)), commitIndex := -1, lastApplied := -1,
          state := Raft.CMRole.Candidate, electionResetEvent := 0,
          nextIndex := fun _ => 0, matchIndex := fun _ => 0 }
        1 2 { term := 1, voteGranted := true } 0).1.state = Raft.CMRole.Leader :=
  (C2_election_win_threshold
      { id := 0, peerIds := [0, 1, 2], currentTerm := 1, votedFor := 0,
        log := ([] : List (Raft.LogEntry Int)), commitIndex := -1, lastApplied := -1,
        state := Raft.CMRole.Candidate, electionResetEvent := 0,
        nextIndex := fun _ => 0, matchIndex := fun _ => 0 }
      1 2 { term := 1, voteGranted := true } 0 rfl rfl rfl).2.1.mpr (by decide)

/-- C3: on a non-Dead node, an inbound RequestVote is granted iff —
after first upgrading the term when `args.term > currentTerm` — the
terms match (equivalently, `currentTerm ≤ args.term` on the original
state), the vote is unassigned or already for this candidate (waived
when the term upgrade cleared it), and the candidate's log is at least
as up-to-date (`args.lastLogTerm` above the local last term, or equal
with `args.lastLogIndex` at least the local last index); granting
records `votedFor = candidateId` and resets the election deadline. -/
theorem C3_requestVote_grant (st : Raft.CMState Int) (args : Raft.RequestVoteArgs)
    (now : Nat) (hAlive : st.state ≠ Raft.CMRole.Dead) :
    ((∃ r, (Raft.requestVote st args now).2 = some r ∧ r.voteGranted = true) ↔
      (st.currentTerm ≤ args.term ∧
        (st.currentTerm < args.term ∨ st.votedFor = -1 ∨ st.votedFor = args.candidateId) ∧
        ((Raft.lastLogIndexAndTerm st.log).2 < args.lastLogTerm ∨
          (args.lastLogTerm = (Raft.lastLogIndexAndTerm st.log).2 ∧
            (Raft.lastLogIndexAndTerm st.log).1 ≤ args.lastLogIndex)))) ∧
    ((∃ r, (Raft.requestVote st args now).2 = some r ∧ r.voteGranted = true) →
      (Raft.requestVote st args now).1.votedFor = args.candidateId ∧
      (Raft.requestVote st args now).1.electionResetEvent = now) := by
  unfold Raft.requestVote
  rw [if_neg hAlive]
  by_cases hgt : args.term > st.currentTerm
  · have hu : Raft.rvTermUpgrade st args now = Raft.becomeFollower st args.term now := by
      unfold Raft.rvTermUpgrade; rw [if_pos hgt]
    rw [hu]
    by_cases hlog : args.lastLogTerm > (Raft.lastLogIndexAndTerm st.log).2 ∨
        (args.lastLogTerm = (Raft.lastLogIndexAndTerm st.log).2 ∧
          args.lastLogIndex ≥ (Raft.lastLogIndexAndTerm st.log).1)
    · rw [if_pos ⟨rfl, Or.inl rfl, hlog⟩]
      refine ⟨?_, fun _ => ⟨rfl, rfl⟩⟩
      simp only [Option.some.injEq]
      constructor
      · intro _
        exact ⟨by omega, Or.inl hgt, hlog⟩
      · intro _
        exact ⟨{ term := args.term, voteGranted := true }, rfl, rfl⟩
    · have hnc : ¬ ((Raft.becomeFollower st args.term now).currentTerm = args.term ∧
          ((Raft.becomeFollower st args.term now).votedFor = -1 ∨
            (Raft.becomeFollower st args.term now).votedFor = args.candidateId) ∧
          (args.lastLogTerm > (Raft.lastLogIndexAndTerm st.log).2 ∨
            (args.lastLogTerm = (Raft.lastLogIndexAndTerm st.log).2 ∧
              args.lastLogIndex ≥ (Raft.lastLogIndexAndTerm st.log).1))) := by
        intro h
        exact hlog h.2.2
      rw [if_neg hnc]
      refine ⟨?_, ?_⟩
      · simp only [Option.some.injEq]
        constructor
        · rintro ⟨r, hr, hg⟩
          rw [← hr] at hg
          cases hg
        · rintro ⟨_, _, h3⟩
          exact absurd h3 hlog
      · rintro ⟨r, hr, hg⟩
        simp only [Option.some.injEq] at hr
        rw [← hr] at hg
        cases hg
  · have hu : Raft.rvTermUpgrade st args now = st := by
      unfold Raft.rvTermUpgrade; rw [if_neg hgt]
    rw [hu]
    by_cases hcond : st.currentTerm = args.term ∧
        (st.votedFor = -1 ∨ st.votedFor = args.candidateId) ∧
        (args.lastLogTerm > (Raft.lastLogIndexAndTerm st.log).2 ∨
          (args.lastLogTerm = (Raft.lastLogIndexAndTerm st.log).2 ∧
            args.lastLogIndex ≥ (Raft.lastLogIndexAndTerm st.log).1))
    · rw [if_pos hcond]
      refine ⟨?_, fun _ => ⟨rfl, rfl⟩⟩
      constructor
      · intro _
        exact ⟨by omega, Or.inr hcond.2.1, hcond.2.2⟩
      · intro _
        exact ⟨{ term := st.currentTerm, voteGranted := true }, rfl, rfl⟩
    · rw [if_neg hcond]
      refine ⟨?_, ?_⟩
      · constructor
        · rintro ⟨r, hr, hg⟩
          simp only [Option.some.injEq] at hr
          rw [← hr] at hg
          cases hg
        · rintro ⟨h1, h2, h3⟩
          refine absurd ⟨by omega, ?_, h3⟩ hcond
          rcases h2 with h | h
          · omega
          · exact h
      · rintro ⟨r, hr, hg⟩
        simp only [Option.some.injEq] at hr
        rw [← hr] at hg
        cases hg

/-- Witness for C3: a Follower at term 1 with no vote and an empty log
grants a vote to candidate 4 at term 1 and records the vote and the
deadline reset at instant 7. -/
theorem C3_requestVote_grant_witness :
    (Raft.requestVote
        { id := 1, peerIds := [0, 1, 2], currentTerm := 1, votedFor := -1,
          log := ([] : List (Raft.LogEntry Int)), commitIndex := -1, lastApplied := -1,
          state := Raft.CMRole.Follower, electionResetEvent := 0,
          nextIndex := fun _ => 0, matchIndex := fun _ => 0 }
        { term := 1, candidateId := 4, lastLogIndex := 9, lastLogTerm := 9 } 7).1.votedFor = 4 ∧
    (Raft.requestVote
        { id := 1, peerIds := [0, 1, 2], currentTerm := 1, votedFor := -1,
          log := ([] : List (Raft.LogEntry Int)), commitIndex := -1, lastApplied := -1,
          state := Raft.CMRole.Follower, electionResetEvent := 0,
          nextIndex := fun _ => 0, matchIndex := fun _ => 0 }
        { term := 1, candidateId := 4, lastLogIndex := 9, lastLogTerm := 9 } 7).1.electionResetEvent = 7 :=
  (C3_requestVote_grant
      { id := 1, peerIds := [0, 1, 2], currentTerm := 1, votedFor := -1,
        log := ([] : List (Raft.LogEntry Int)), commitIndex := -1, lastApplied := -1,
        state := Raft.CMRole.Follower, electionResetEvent := 0,
        nextIndex := fun _ => 0, matchIndex := fun _ => 0 }
      { term := 1, candidateId := 4, lastLogIndex := 9, lastLogTerm := 9 } 7
      (by decide)).2
    ⟨{ term := 1, voteGranted := true }, by decide, rfl⟩

/-! ## Supporting lemmas: AppendEntries stages -/

namespace Raft

theorem aeTermUpgrade_log (st : CMState α) (args : AppendEntriesArgs α) (now : Nat) :
    (aeTermUpgrade st args now).log = st.log := by
  unfold aeTermUpgrade; split <;> rfl

theorem aeTermUpgrade_commitIndex (st : CMState α) (args : AppendEntriesArgs α) (now : Nat) :
    (aeTermUpgrade st args now).commitIndex = st.commitIndex := by
  unfold aeTermUpgrade; split <;> rfl

/-- The leader's term equals the upgraded `currentTerm` exactly when it
is at least the original `currentTerm`. -/
theorem aeTermUpgrade_term_match (st : CMState α) (args : AppendEntriesArgs α) (now : Nat) :
    args.term = (aeTermUpgrade st args now).currentTerm ↔ st.currentTerm ≤ args.term := by
  unfold aeTermUpgrade
  by_cases h : args.term > st.currentTerm
  · rw [if_pos h]
    exact ⟨fun _ => by omega, fun _ => rfl⟩
  · rw [if_neg h]
    exact ⟨fun he => by omega, fun hle => by omega⟩

theorem aeRoleFix_log (st : CMState α) (args : AppendEntriesArgs α) (now : Nat) :
    (aeRoleFix st args now).log = st.log := by
  unfold aeRoleFix; split <;> rfl

theorem aeRoleFix_commitIndex (st : CMState α) (args : AppendEntriesArgs α) (now : Nat) :
    (aeRoleFix st args now).commitIndex = st.commitIndex := by
  unfold aeRoleFix; split <;> rfl

theorem aeRoleFix_currentTerm (st : CMState α) (args : AppendEntriesArgs α) (now : Nat)
    (h : st.currentTerm = args.term) :
    (aeRoleFix st args now).currentTerm = args.term := by
  unfold aeRoleFix; split
  · rfl
  · exact h

theorem aeAccept_log (st : CMState α) (args : AppendEntriesArgs α) :
    (aeAccept st args).1.log
      = reconcileLog st.log args.entries (args.prevLogIndex + 1).toNat := by
  unfold aeAccept; split <;> rfl

theorem aeAccept_currentTerm (st : CMState α) (args : AppendEntriesArgs α) :
    (aeAccept st args).1.currentTerm = st.currentTerm := by
  unfold aeAccept; split <;> rfl

theorem aeAccept_commitIndex (st : CMState α) (args : AppendEntriesArgs α) :
    (aeAccept st args).1.commitIndex
      = if args.leaderCommit > st.commitIndex
        then intMin args.leaderCommit
          (((reconcileLog st.log args.entries (args.prevLogIndex + 1).toNat).length : Int) - 1)
        else st.commitIndex := by
  unfold aeAccept
  by_cases h : args.leaderCommit > st.commitIndex
  · rw [if_pos h, if_pos h]
  · rw [if_neg h, if_neg h]

theorem aeAccept_flag (st : CMState α) (args : AppendEntriesArgs α) :
    (aeAccept st args).2 = decide (args.leaderCommit > st.commitIndex) := by
  unfold aeAccept
  by_cases h : args.leaderCommit > st.commitIndex
  · rw [if_pos h]; simp [h]
  · rw [if_neg h]; simp [h]

/-- The success path of `appendEntries` on a non-Dead node whose term
check and consistency check both pass: the reply is a success carrying
`args.term`, the log is the reconciled log, the commit index follows
the `leaderCommit` rule, and the commit-ready flag mirrors whether the
rule fired. -/
theorem appendEntries_success_shape (st : CMState α) (args : AppendEntriesArgs α)
    (now : Nat) (hAlive : st.state ≠ CMRole.Dead) (hTerm : st.currentTerm ≤ args.term)
    (hCons : aeConsistencyOK st.log args.prevLogIndex args.prevLogTerm = true) :
    (appendEntries st args now).1.log
        = reconcileLog st.log args.entries (args.prevLogIndex + 1).toNat ∧
    (appendEntries st args now).2.1 = some { term := args.term, success := true } ∧
    (appendEntries st args now).1.commitIndex
        = (if args.leaderCommit > st.commitIndex
           then intMin args.leaderCommit
             (((reconcileLog st.log args.entries (args.prevLogIndex + 1).toNat).length : Int)
               - 1)
           else st.commitIndex) ∧
    (appendEntries st args now).2.2 = decide (args.leaderCommit > st.commitIndex) := by
  have hm : args.term = (aeTermUpgrade st args now).currentTerm :=
    (aeTermUpgrade_term_match st args now).mpr hTerm
  have hup : (aeTermUpgrade st args now).currentTerm = args.term := hm.symm
  have hFlog : (aeRoleFix (aeTermUpgrade st args now) args now).log = st.log := by
    rw [aeRoleFix_log, aeTermUpgrade_log]
  have hFci : (aeRoleFix (aeTermUpgrade st args now) args now).commitIndex
      = st.commitIndex := by
    rw [aeRoleFix_commitIndex, aeTermUpgrade_commitIndex]
  have hFterm : (aeRoleFix (aeTermUpgrade st args now) args now).currentTerm = args.term :=
    aeRoleFix_currentTerm (aeTermUpgrade st args now) args now hup
  have hConsF : aeConsistencyOK (aeRoleFix (aeTermUpgrade st args now) args now).log
      args.prevLogIndex args.prevLogTerm = true := by rw [hFlog]; exact hCons
  unfold appendEntries
  rw [if_neg hAlive, if_pos hm, if_pos hConsF]
  refine ⟨?_, ?_, ?_, ?_⟩
  · rw [aeAccept_log, hFlog]
  · rw [aeAccept_currentTerm, hFterm]
  · rw [aeAccept_commitIndex, hFlog, hFci]
  · rw [aeAccept_flag, hFci]

/-- `agreeLen` never exceeds the length of the sent entries. -/
theorem agreeLen_le_right (l e : List (LogEntry α)) : agreeLen l e ≤ e.length := by
  induction l generalizing e with
  | nil => cases e <;> simp [agreeLen]
  | cons x xs ih =>
    cases e with
    | nil => simp [agreeLen]
    | cons y ys =>
      unfold agreeLen
      split
      · have := ih ys
        simpa using this
      · omega

/-- `agreeLen` never exceeds the length of the local tail. -/
theorem agreeLen_le_left (l e : List (LogEntry α)) : agreeLen l e ≤ l.length := by
  induction l generalizing e with
  | nil => cases e <;> simp [agreeLen]
  | cons x xs ih =>
    cases e with
    | nil => simp [agreeLen]
    | cons y ys =>
      unfold agreeLen
      split
      · have := ih ys
        simpa using this
      · omega

/-- Below `agreeLen`, the terms of the local tail and of the sent
entries coincide. -/
theorem agreeLen_agree (l e : List (LogEntry α)) :
    ∀ j, j < agreeLen l e →
      (l[j]?).map LogEntry.term = (e[j]?).map LogEntry.term := by
  induction l generalizing e with
  | nil =>
    intro j hj
    cases e <;> simp [agreeLen] at hj
  | cons x xs ih =>
    intro j hj
    cases e with
    | nil => simp [agreeLen] at hj
    | cons y ys =>
      unfold agreeLen at hj
      by_cases ht : x.term = y.term
      · rw [if_pos ht] at hj
        cases j with
        | zero => simp [ht]
        | succ j =>
          simp only [List.getElem?_cons_succ]
          exact ih ys j (by omega)
      · rw [if_neg ht] at hj
        omega

/-- At `agreeLen`, when sent entries remain, the terms (or presence) of
the local tail and of the sent entries differ. -/
theorem agreeLen_mismatch (l e : List (LogEntry α)) (h : agreeLen l e < e.length) :
    (l[agreeLen l e]?).map LogEntry.term ≠ (e[agreeLen l e]?).map LogEntry.term := by
  induction l generalizing e with
  | nil =>
    cases e with
    | nil => simp at h
    | cons y ys => simp [agreeLen]
  | cons x xs ih =>
    cases e with
    | nil => simp at h
    | cons y ys =>
      by_cases ht : x.term = y.term
      · have hstep : agreeLen (x :: xs) (y :: ys) = agreeLen xs ys + 1 := by
          show (if x.term = y.term then agreeLen xs ys + 1 else 0) = agreeLen xs ys + 1
          rw [if_pos ht]
        rw [hstep] at h ⊢
        simp only [List.getElem?_cons_succ]
        simp only [List.length_cons] at h
        exact ih ys (by omega)
      · have h0 : agreeLen (x :: xs) (y :: ys) = 0 := by
          show (if x.term = y.term then agreeLen xs ys + 1 else 0) = 0
          rw [if_neg ht]
        rw [h0]
        simp only [List.getElem?_cons_zero, Option.map_some]
        exact fun hh => ht (Option.some.inj hh)

/-- When the consistency check passes, the insertion base
`prevLogIndex + 1` is at most the log length. -/
theorem aeConsistencyOK_base_le (log : List (LogEntry α)) (prevLogIndex prevLogTerm : Int)
    (h : aeConsistencyOK log prevLogIndex prevLogTerm = true) :
    (prevLogIndex + 1).toNat ≤ log.length := by
  unfold aeConsistencyOK at h
  simp only [Bool.or_eq_true, decide_eq_true_eq, Bool.and_eq_true] at h
  rcases h with h | ⟨h1, h2⟩
  · omega
  · unfold logTermAt at h2
    by_cases h0 : 0 ≤ prevLogIndex
    · omega
    · rw [if_neg h0] at h2
      cases h2

end Raft

/-- C4: on an AppendEntries whose term matches (after the upgrade) and
whose consistency check passes, the follower walks to the first index
`i ≥ prevLogIndex+1` where the local term disagrees with the
corresponding sent entry (`i = prevLogIndex+1+k` with `k` the agreed
prefix length): positions below `i` — in particular every local entry
whose term agrees with the corresponding sent entry — are never
truncated; the log is truncated at `i` and the remaining sent entries
are appended; and if all sent entries agree the log is unchanged. -/
theorem C4_follower_log_reconciliation (st : Raft.CMState Int)
    (args : Raft.AppendEntriesArgs Int) (now : Nat)
    (hAlive : st.state ≠ Raft.CMRole.Dead)
    (hTerm : st.currentTerm ≤ args.term)
    (hCons : Raft.aeConsistencyOK st.log args.prevLogIndex args.prevLogTerm = true) :
    (∀ q, q < (args.prevLogIndex + 1).toNat
          + Raft.agreeLen (st.log.drop (args.prevLogIndex + 1).toNat) args.entries →
        ((Raft.appendEntries st args now).1.log)[q]? = st.log[q]?) ∧
    (∀ j, j < Raft.agreeLen (st.log.drop (args.prevLogIndex + 1).toNat) args.entries →
        (st.log[(args.prevLogIndex + 1).toNat + j]?).map Raft.LogEntry.term
          = (args.entries[j]?).map Raft.LogEntry.term) ∧
    (Raft.agreeLen (st.log.drop (args.prevLogIndex + 1).toNat) args.entries
        < args.entries.length →
      (st.log[(args.prevLogIndex + 1).toNat
          + Raft.agreeLen (st.log.drop (args.prevLogIndex + 1).toNat) args.entries]?).map
          Raft.LogEntry.term
        ≠ (args.entries[Raft.agreeLen (st.log.drop (args.prevLogIndex + 1).toNat)
            args.entries]?).map Raft.LogEntry.term) ∧
    (Raft.agreeLen (st.log.drop (args.prevLogIndex + 1).toNat) args.entries
        < args.entries.length →
      (Raft.appendEntries st args now).1.log
          = st.log.take ((args.prevLogIndex + 1).toNat
              + Raft.agreeLen (st.log.drop (args.prevLogIndex + 1).toNat) args.entries)
            ++ args.entries.drop
                (Raft.agreeLen (st.log.drop (args.prevLogIndex + 1).toNat) args.entries) ∧
      ((Raft.appendEntries st args now).1.log).length
          = (args.prevLogIndex + 1).toNat + args.entries.length) ∧
    (∀ j, Raft.agreeLen (st.log.drop (args.prevLogIndex + 1).toNat) args.entries ≤ j →
        j < args.entries.length →
        ((Raft.appendEntries st args now).1.log)[(args.prevLogIndex + 1).toNat + j]?
          = args.entries[j]?) ∧
    (Raft.agreeLen (st.log.drop (args.prevLogIndex + 1).toNat) args.entries
        = args.entries.length →
      (Raft.appendEntries st args now).1.log = st.log) := by
  obtain ⟨hL, hreply, hci, hflag⟩ :=
    Raft.appendEntries_success_shape st args now hAlive hTerm hCons
  set p1 := (args.prevLogIndex + 1).toNat with hp1def
  set k := Raft.agreeLen (st.log.drop p1) args.entries with hkdef
  have hp1 : p1 ≤ st.log.length := Raft.aeConsistencyOK_base_le st.log _ _ hCons
  have hkd : k ≤ (st.log.drop p1).length := Raft.agreeLen_le_left _ _
  have hklen : k ≤ args.entries.length := Raft.agreeLen_le_right _ _
  have hdroplen : (st.log.drop p1).length = st.log.length - p1 := List.length_drop _ _
  have hp1k : p1 + k ≤ st.log.length := by omega
  have hrec : Raft.reconcileLog st.log args.entries p1
      = if k < args.entries.length
        then st.log.take (p1 + k) ++ args.entries.drop k
        else st.log := rfl
  have htl : k < args.entries.length → (st.log.take (p1 + k)).length = p1 + k := by
    intro _
    rw [List.length_take]
    exact Nat.min_eq_left hp1k
  refine ⟨?_, ?_, ?_, ?_, ?_, ?_⟩
  · intro q hq
    rw [hL, hrec]
    by_cases hkl : k < args.entries.length
    · rw [if_pos hkl]
      rw [List.getElem?_append_left (by rw [htl hkl]; omega)]
      rw [List.getElem?_take, if_pos hq]
    · rw [if_neg hkl]
  · intro j hj
    have h := Raft.agreeLen_agree (st.log.drop p1) args.entries j hj
    rwa [List.getElem?_drop] at h
  · intro hkl
    have h := Raft.agreeLen_mismatch (st.log.drop p1) args.entries hkl
    rw [← hkdef] at h
    rwa [List.getElem?_drop] at h
  · intro hkl
    refine ⟨by rw [hL, hrec, if_pos hkl], ?_⟩
    rw [hL, hrec, if_pos hkl, List.length_append, List.length_take, List.length_drop,
      Nat.min_eq_left hp1k]
    omega
  · intro j hjk hjl
    have hkl : k < args.entries.length := by omega
    rw [hL, hrec, if_pos hkl]
    rw [List.getElem?_append_right (by rw [htl hkl]; omega)]
    rw [htl hkl, List.getElem?_drop]
    congr 1
    omega
  · intro hke
    rw [hL, hrec, if_neg (by omega)]

/-- Witness for C4: a follower whose log is `[{10,1},{11,1}]` receives
entries `[{10,1},{5,2}]` at `prevLogIndex = -1`; the agreed prefix has
length 1, and position 0 of the log is untouched. -/
theorem C4_follower_log_reconciliation_witness :
    ((Raft.appendEntries
        { id := 1, peerIds := [0, 1, 2], currentTerm := 1, votedFor := -1,
          log := [{ command := (10 : Int), term := 1 }, { command := 11, term := 1 }],
          commitIndex := -1, lastApplied := -1,
          state := Raft.CMRole.Follower, electionResetEvent := 0,
          nextIndex := fun _ => 0, matchIndex := fun _ => 0 }
        { term := 1, leaderId := 0, prevLogIndex := -1, prevLogTerm := -1,
          entries := [{ command := 10, term := 1 }, { command := 5, term := 2 }],
          leaderCommit := -1 } 3).1.log)[0]?
      = some { command := (10 : Int), term := 1 } :=
  Eq.trans
    ((C4_follower_log_reconciliation
      { id := 1, peerIds := [0, 1, 2], currentTerm := 1, votedFor := -1,
        log := [{ command := (10 : Int), term := 1 }, { command := 11, term := 1 }],
        commitIndex := -1, lastApplied := -1,
        state := Raft.CMRole.Follower, electionResetEvent := 0,
        nextIndex := fun _ => 0, matchIndex := fun _ => 0 }
      { term := 1, leaderId := 0, prevLogIndex := -1, prevLogTerm := -1,
        entries := [{ command := 10, term := 1 }, { command := 5, term := 2 }],
        leaderCommit := -1 } 3
      (by decide) (by decide) (by decide)).1 0 (by decide))
    rfl

/-- C5, counterexample to the claim as stated: `commitIndex` CAN
decrease in a successful AppendEntries. A follower with three committed
term-1 entries (`commitIndex = 2`) accepts an AppendEntries from a
term-3 leader whose single entry has term 2: reconciliation truncates
the whole log (first-entry term mismatch), leaving one entry, and
`leaderCommit = 5 > 2` sets `commitIndex = min(5, 0) = 0 < 2`. (Such a
state violates global Raft safety, but the handler itself does not
guarantee monotonicity.) -/
theorem C5_counterexample :
    (Raft.appendEntries
        { id := 1, peerIds := [0, 1, 2], currentTerm := 1, votedFor := -1,
          log := [{ command := (0 : Int), term := 1 }, { command := 0, term := 1 },
            { command := 0, term := 1 }],
          commitIndex := 2, lastApplied := 2,
          state := Raft.CMRole.Follower, electionResetEvent := 0,
          nextIndex := fun _ => 0, matchIndex := fun _ => 0 }
        { term := 3, leaderId := 0, prevLogIndex := -1, prevLogTerm := -1,
          entries := [{ command := 7, term := 2 }], leaderCommit := 5 } 0).2.1
      = some { term := 3, success := true } ∧
    (Raft.appendEntries
        { id := 1, peerIds := [0, 1, 2], currentTerm := 1, votedFor := -1,
          log := [{ command := (0 : Int), term := 1 }, { command := 0, term := 1 },
            { command := 0, term := 1 }],
          commitIndex := 2, lastApplied := 2,
          state := Raft.CMRole.Follower, electionResetEvent := 0,
          nextIndex := fun _ => 0, matchIndex := fun _ => 0 }
        { term := 3, leaderId := 0, prevLogIndex := -1, prevLogTerm := -1,
          entries := [{ command := 7, term := 2 }], leaderCommit := 5 } 0).1.commitIndex
      = 0 := by
  constructor <;> rfl

/-- C5 (amended): in a successful AppendEntries, if
`args.leaderCommit > commitIndex` the follower sets
`commitIndex = min(args.leaderCommit, lastLogIndex)` with `lastLogIndex`
taken after reconciliation and posts a commit-ready wake; otherwise
`commitIndex` is unchanged and no wake is posted. `commitIndex` never
decreases in this handler provided it does not exceed the
post-reconciliation last log index (always true in reachable states,
where committed entries are never truncated). -/
theorem C5_amended_follower_commit (st : Raft.CMState Int)
    (args : Raft.AppendEntriesArgs Int) (now : Nat)
    (hAlive : st.state ≠ Raft.CMRole.Dead)
    (hTerm : st.currentTerm ≤ args.term)
    (hCons : Raft.aeConsistencyOK st.log args.prevLogIndex args.prevLogTerm = true) :
    (Raft.appendEntries st args now).2.1 = some { term := args.term, success := true } ∧
    (args.leaderCommit > st.commitIndex →
      (Raft.appendEntries st args now).1.commitIndex
          = Raft.intMin args.leaderCommit
              ((((Raft.appendEntries st args now).1.log).length : Int) - 1) ∧
      (Raft.appendEntries st args now).2.2 = true) ∧
    (¬ args.leaderCommit > st.commitIndex →
      (Raft.appendEntries st args now).1.commitIndex = st.commitIndex ∧
      (Raft.appendEntries st args now).2.2 = false) ∧
    (st.commitIndex ≤ (((Raft.appendEntries st args now).1.log).length : Int) - 1 →
      st.commitIndex ≤ (Raft.appendEntries st args now).1.commitIndex) := by
  obtain ⟨hL, hreply, hci, hflag⟩ :=
    Raft.appendEntries_success_shape st args now hAlive hTerm hCons
  refine ⟨hreply, ?_, ?_, ?_⟩
  · intro hgt
    rw [hci, if_pos hgt, hL, hflag]
    exact ⟨rfl, by simp [hgt]⟩
  · intro hgt
    rw [hci, if_neg hgt, hflag]
    exact ⟨rfl, by simp [hgt]⟩
  · intro hmono
    rw [hL] at hmono
    rw [hci]
    by_cases hgt : args.leaderCommit > st.commitIndex
    · rw [if_pos hgt]
      unfold Raft.intMin
      split <;> omega
    · rw [if_neg hgt]

/-- Witness for C5 (amended): a follower with an empty commit state and
one reconciled entry receives `leaderCommit = 0 > -1` and sets
`commitIndex = min(0, 0) = 0`, posting the wake. -/
theorem C5_amended_follower_commit_witness :
    (Raft.appendEntries
        { id := 1, peerIds := [0, 1, 2], currentTerm := 1, votedFor := -1,
          log := [{ command := (0 : Int), term := 1 }], commitIndex := -1, lastApplied := -1,
          state := Raft.CMRole.Follower, electionResetEvent := 0,
          nextIndex := fun _ => 0, matchIndex := fun _ => 0 }
        { term := 1, leaderId := 0, prevLogIndex := -1, prevLogTerm := -1,
          entries := [], leaderCommit := 0 } 0).1.commitIndex
      = Raft.intMin 0
          ((((Raft.appendEntries
            { id := 1, peerIds := [0, 1, 2], currentTerm := 1, votedFor := -1,
              log := [{ command := (0 : Int), term := 1 }], commitIndex := -1, lastApplied := -1,
              state := Raft.CMRole.Follower, electionResetEvent := 0,
              nextIndex := fun _ => 0, matchIndex := fun _ => 0 }
            { term := 1, leaderId := 0, prevLogIndex := -1, prevLogTerm := -1,
              entries := [], leaderCommit := 0 } 0).1.log).length : Int) - 1) :=
  ((C5_amended_follower_commit
      { id := 1, peerIds := [0, 1, 2], currentTerm := 1, votedFor := -1,
        log := [{ command := (0 : Int), term := 1 }], commitIndex := -1, lastApplied := -1,
        state := Raft.CMRole.Follower, electionResetEvent := 0,
        nextIndex := fun _ => 0, matchIndex := fun _ => 0 }
      { term := 1, leaderId := 0, prevLogIndex := -1, prevLogTerm := -1,
        entries := [], leaderCommit := 0 } 0
      (by decide) (by decide) (by decide)).2.1 (by decide)).1

/-- C7, counterexample to the claim as stated: a Dead node returns from
both RPC handlers without writing any reply, so no reply carrying the
node's `currentTerm = 5` exists. -/
theorem C7_counterexample :
    (Raft.requestVote
        { id := 0, peerIds := [0, 1, 2], currentTerm := 5, votedFor := -1,
          log := ([] : List (Raft.LogEntry Int)), commitIndex := -1, lastApplied := -1,
          state := Raft.CMRole.Dead, electionResetEvent := 0,
          nextIndex := fun _ => 0, matchIndex := fun _ => 0 }
        { term := 6, candidateId := 1, lastLogIndex := 0, lastLogTerm := 0 } 0).2
      = none ∧
    (Raft.appendEntries
        { id := 0, peerIds := [0, 1, 2], currentTerm := 5, votedFor := -1,
          log := ([] : List (Raft.LogEntry Int)), commitIndex := -1, lastApplied := -1,
          state := Raft.CMRole.Dead, electionResetEvent := 0,
          nextIndex := fun _ => 0, matchIndex := fun _ => 0 }
        { term := 6, leaderId := 1, prevLogIndex := -1, prevLogTerm := -1,
          entries := [], leaderCommit := -1 } 0).2.1
      = none := by
  constructor <;> rfl

/-- C7 (amended): on every non-Dead node, each inbound RequestVote
produces a reply carrying the voter's (post-update) `currentTerm`, and
each inbound AppendEntries produces a reply carrying the follower's
post-update `currentTerm` together with the success boolean; a Dead
node's handlers return without writing the reply. -/
theorem C7_amended_reply_terms (st : Raft.CMState Int) (argsRV : Raft.RequestVoteArgs)
    (argsAE : Raft.AppendEntriesArgs Int) (now : Nat)
    (hAlive : st.state ≠ Raft.CMRole.Dead) :
    (∃ r, (Raft.requestVote st argsRV now).2 = some r ∧
        r.term = (Raft.requestVote st argsRV now).1.currentTerm) ∧
    (∃ r, (Raft.appendEntries st argsAE now).2.1 = some r ∧
        r.term = (Raft.appendEntries st argsAE now).1.currentTerm) := by
  constructor
  · unfold Raft.requestVote
    rw [if_neg hAlive]
    split
    · exact ⟨_, rfl, rfl⟩
    · exact ⟨_, rfl, rfl⟩
  · unfold Raft.appendEntries
    rw [if_neg hAlive]
    split
    · split
      · exact ⟨_, rfl, rfl⟩
      · exact ⟨_, rfl, rfl⟩
    · exact ⟨_, rfl, rfl⟩

/-- Witness for C7 (amended): a live follower produces replies from both
handlers. -/
theorem C7_amended_reply_terms_witness :
    (Raft.requestVote
        { id := 0, peerIds := [0, 1, 2], currentTerm := 3, votedFor := -1,
          log := ([] : List (Raft.LogEntry Int)), commitIndex := -1, lastApplied := -1,
          state := Raft.CMRole.Follower, electionResetEvent := 0,
          nextIndex := fun _ => 0, matchIndex := fun _ => 0 }
        { term := 2, candidateId := 1, lastLogIndex := 0, lastLogTerm := 0 } 0).2.isSome
      = true ∧
    (Raft.appendEntries
        { id := 0, peerIds := [0, 1, 2], currentTerm := 3, votedFor := -1,
          log := ([] : List (Raft.LogEntry Int)), commitIndex := -1, lastApplied := -1,
          state := Raft.CMRole.Follower, electionResetEvent := 0,
          nextIndex := fun _ => 0, matchIndex := fun _ => 0 }
        { term := 2, leaderId := 1, prevLogIndex := -1, prevLogTerm := -1,
          entries := [], leaderCommit := -1 } 0).2.1.isSome
      = true := by
  obtain ⟨⟨r1, h1, g1⟩, ⟨r2, h2, g2⟩⟩ :=
    C7_amended_reply_terms
      { id := 0, peerIds := [0, 1, 2], currentTerm := 3, votedFor := -1,
        log := ([] : List (Raft.LogEntry Int)), commitIndex := -1, lastApplied := -1,
        state := Raft.CMRole.Follower, electionResetEvent := 0,
        nextIndex := fun _ => 0, matchIndex := fun _ => 0 }
      { term := 2, candidateId := 1, lastLogIndex := 0, lastLogTerm := 0 }
      { term := 2, leaderId := 1, prevLogIndex := -1, prevLogTerm := -1,
        entries := [], leaderCommit := -1 } 0 (by decide)
  exact ⟨by rw [h1]; rfl, by rw [h2]; rfl⟩

/-! ## Supporting lemmas: Submit wait loop -/

namespace Raft

/-- The wait loop returns the first arriving result whose index is the
submitted one (or nothing when no such result arrives before the
ticker), and re-enqueues exactly the mismatched results that arrived
before it, in order. -/
theorem submitWait_spec (targetIndex : Int) (arrivals : List (CommittedResult ρ)) :
    (submitWait targetIndex arrivals).1
        = (arrivals.find? (fun r => r.index == targetIndex)).map CommittedResult.result ∧
    (submitWait targetIndex arrivals).2
        = arrivals.takeWhile (fun r => !(r.index == targetIndex)) := by
  induction arrivals with
  | nil => exact ⟨rfl, rfl⟩
  | cons r rs ih =>
    rcases hsw : submitWait targetIndex rs with ⟨res, rq⟩
    rw [hsw] at ih
    by_cases h : r.index = targetIndex
    · have hstep : submitWait targetIndex (r :: rs) = (some r.result, []) := by
        show (if r.index = targetIndex
              then (some r.result, ([] : List (CommittedResult ρ)))
              else (match submitWait targetIndex rs with
                    | (res, requeued) => (res, r :: requeued))) = (some r.result, [])
        rw [if_pos h]
      have hb : (r.index == targetIndex) = true := by simp [h]
      rw [hstep]
      constructor
      · rw [List.find?_cons, hb]
        rfl
      · rw [List.takeWhile_cons]
        simp [hb]
    · have hstep : submitWait targetIndex (r :: rs) = (res, r :: rq) := by
        show (if r.index = targetIndex
              then (some r.result, ([] : List (CommittedResult ρ)))
              else (match submitWait targetIndex rs with
                    | (res, requeued) => (res, r :: requeued))) = (res, r :: rq)
        rw [if_neg h, hsw]
      have hb : (r.index == targetIndex) = false := by simp [h]
      rw [hstep]
      constructor
      · rw [List.find?_cons, hb]
        exact ih.1
      · rw [List.takeWhile_cons]
        simp only [hb, Bool.not_false, if_true]
        exact congrArg (List.cons r) ih.2

end Raft

/-- C6: Submit on a node that is not Leader returns `(nil, false)` at
once without touching any state; on a Leader it appends
`{command, currentTerm}` at index `len(log)`, wakes the replication
loop, and waits (up to the 650 ms ticker) on the committed-result
channel, consuming only the result whose index equals the appended
index: the wait loop returns the first arriving matching result,
re-enqueues the mismatched results that arrived before it, and yields
`(nil, false)` when no matching result arrives before the ticker. -/
theorem C6_submit_contract (st : Raft.CMState Int) (command : Int)
    (arrivals : List (Raft.CommittedResult Int)) :
    (st.state ≠ Raft.CMRole.Leader →
      Raft.submit st command arrivals =
        { st := st, res := none, ok := false, triggeredAE := false, requeued := [] }) ∧
    (st.state = Raft.CMRole.Leader →
      (Raft.submit st command arrivals).st.log
          = st.log ++ [{ command := command, term := st.currentTerm }] ∧
      (Raft.submit st command arrivals).triggeredAE = true ∧
      (Raft.submit st command arrivals).res
          = (Raft.submitWait ((st.log.length : Int)) arrivals).1 ∧
      (Raft.submit st command arrivals).ok
          = ((Raft.submit st command arrivals).res).isSome) ∧
    (∀ (target : Int) (arr : List (Raft.CommittedResult Int)),
      (Raft.submitWait target arr).1
          = (arr.find? (fun r => r.index == target)).map Raft.CommittedResult.result ∧
      (Raft.submitWait target arr).2
          = arr.takeWhile (fun r => !(r.index == target))) ∧
    Raft.submitTimeoutMs = 650 := by
  refine ⟨?_, ?_, fun target arr => Raft.submitWait_spec target arr, rfl⟩
  · intro h
    unfold Raft.submit
    rw [if_neg h]
  · intro h
    unfold Raft.submit
    rw [if_pos h]
    dsimp only
    have hidx : ((st.log
          ++ [({ command := command, term := st.currentTerm } : Raft.LogEntry Int)]).length
          : Int) - 1
        = (st.log.length : Int) := by
      simp only [List.length_append, List.length_singleton]
      push_cast
      omega
    rcases hsw : Raft.submitWait
        (((st.log
            ++ [({ command := command, term := st.currentTerm } : Raft.LogEntry Int)]).length
          : Int) - 1)
        arrivals with ⟨res, rq⟩
    rw [hidx] at hsw
    rw [hsw]
    exact ⟨rfl, rfl, rfl, rfl⟩

/-- Witness for C6: a leader at term 2 with an empty log submits a
command; among the arrivals, the result indexed 1 is re-enqueued and
the result indexed 0 — the appended index — is returned. -/
theorem C6_submit_contract_witness :
    (Raft.submit
        { id := 0, peerIds := [0, 1, 2], currentTerm := 2, votedFor := 0,
          log := ([] : List (Raft.LogEntry Int)), commitIndex := -1, lastApplied := -1,
          state := Raft.CMRole.Leader, electionResetEvent := 0,
          nextIndex := fun _ => 0, matchIndex := fun _ => 0 }
        (3 : Int)
        ([{ result := 9, index := 1 }, { result := 7, index := 0 }]
          : List (Raft.CommittedResult Int))).res = some (7 : Int) := by
  have h := (C6_submit_contract
      { id := 0, peerIds := [0, 1, 2], currentTerm := 2, votedFor := 0,
        log := ([] : List (Raft.LogEntry Int)), commitIndex := -1, lastApplied := -1,
        state := Raft.CMRole.Leader, electionResetEvent := 0,
        nextIndex := fun _ => 0, matchIndex := fun _ => 0 }
      (3 : Int)
      [{ result := 9, index := 1 }, { result := 7, index := 0 }]).2.1 rfl
  exact h.2.2.1.trans (by rfl)
